import Mathlib

/-!
Verification of `prepare_data.py` (serverscom conversion config of
focus_converters): a single-pass batch transformation of billing CSV rows.
The Python source is shallowly embedded below: rows become a fixed-field
structure, the row loop becomes structural recursion returning `Except`
(the first raised exception aborts the batch), Python `str.split(" ")`
becomes a structural split on the character list, `float(...)` becomes a
partial parser into `Rat`, and `datetime`/`calendar` date arithmetic
becomes explicit functions on a year/month/day record. Division is
embedded as `ratDiv`, a numerator/denominator computation proved equal to
rational division (`ratDiv_eq_div`) so that concrete runs stay
kernel-computable.
-/

set_option maxRecDepth 8192

/-- Calendar date, modelling the date component of `datetime.datetime`
(the time component is irrelevant: the script only ever formats
day/month/year and replaces the day). -/
structure Date where
  year : Nat
  month : Nat
  day : Nat
deriving Repr, DecidableEq

/-- `calendar.isleap`: divisible by 4 and (not by 100 or by 400). -/
def isLeapYear (y : Nat) : Bool :=
  y % 4 == 0 && (y % 100 != 0 || y % 400 == 0)

/-- `calendar.monthrange(y, m)[1]`: the number of days of month `m`
of year `y` (leap-year aware). -/
def daysInMonth (y m : Nat) : Nat :=
  if m = 2 then (if isLeapYear y then 29 else 28)
  else if m = 4 ∨ m = 6 ∨ m = 9 ∨ m = 11 then 30
  else 31

/-- Zero-padding to two digits, as `strftime` does for `%d`, `%m`, `%y`. -/
def pad2 (n : Nat) : String :=
  if n < 10 then "0" ++ toString n else toString n

/-- `strftime("%d.%m.%y")`: two-digit day, month and year (mod 100),
separated by periods. -/
def fmtDate (d : Date) : String :=
  pad2 d.day ++ "." ++ pad2 d.month ++ "." ++ pad2 (d.year % 100)

/-- Python `s.split(" ")` on the character list: split at every single
space, keeping empty pieces, never returning the empty list (so
`"".split(" ") == [""]`, `"a  b".split(" ") == ["a", "", "b"]`). -/
def splitSpaceAux : List Char → List (List Char)
  | [] => [[]]
  | c :: rest =>
    match splitSpaceAux rest with
    | [] => [[]]
    | t :: ts => if c = ' ' then [] :: t :: ts else (c :: t) :: ts

/-- Python `s.split(" ")` as a list of strings. -/
def pySplit (s : String) : List String :=
  (splitSpaceAux s.data).map String.mk

/-- Python `s.split(" ")[0]`: the first piece (always present). -/
def firstTok (s : String) : String :=
  (pySplit s).headD ""

/-- Value of a digit string, most significant first. -/
def digitsToNat (cs : List Char) : Nat :=
  cs.foldl (fun acc c => acc * 10 + (c.toNat - 48)) 0

/-- Decimal-literal body after an optional sign: digits with an optional
fractional part (`"5"`, `"5."`, `".5"`); `none` otherwise. The value
`sign * (intpart.fracpart)` is assembled exactly with `mkRat`. -/
def parseDecimal (sign : Int) (body : List Char) : Option Rat :=
  let intPart := body.takeWhile Char.isDigit
  let rest := body.dropWhile Char.isDigit
  match rest with
  | [] => if intPart.isEmpty then none else some (mkRat (sign * digitsToNat intPart) 1)
  | '.' :: frac =>
      if frac.all Char.isDigit && !(intPart.isEmpty && frac.isEmpty) then
        some (mkRat (sign * (digitsToNat intPart * 10 ^ frac.length + digitsToNat frac)) (10 ^ frac.length))
      else none
  | _ => none

/-- Python `float(s)` on plain decimal literals: optional sign, digits
with an optional fractional part; `none` when the string is not of this
form, modelling the `ValueError` that `float` raises. Exponent forms,
`inf`/`nan` and surrounding whitespace are outside the modelled grammar.
The result is an exact rational. -/
def parseFloat (s : String) : Option Rat :=
  match s.data with
  | '-' :: rest => parseDecimal (-1) rest
  | '+' :: rest => parseDecimal 1 rest
  | cs => parseDecimal 1 cs

/-- Division of rationals computed on numerator and denominator, so that
concrete instances reduce in the kernel; `ratDiv_eq_div` proves it is
exactly `a / b` (including the `b = 0` convention `a / 0 = 0`, which the
pipeline never reaches: it raises on a zero divisor first). -/
def ratDiv (a b : Rat) : Rat :=
  if 0 ≤ b.num then mkRat (a.num * (b.den : Int)) (a.den * b.num.natAbs)
  else mkRat (-(a.num * (b.den : Int))) (a.den * b.num.natAbs)

/-- A Raw Record: one input CSV row with the required keys of the script
(`service_id`, `parent_service_id`, `title`, `service_type`,
`description`, `quantity`, `subotal`), all text. -/
structure Rec where
  service_id : String
  parent_service_id : String
  title : String
  service_type : String
  description : String
  quantity : String
  subotal : String
deriving Repr, DecidableEq

/-- An Enriched Record: the row after `process_data`, i.e. the original
keys (some overwritten) plus the appended billing fields, in the
dictionary's insertion order. `list_unit_price` is the one numeric
field (`float` in the source, `Rat` here). -/
structure OutRec where
  service_id : String
  parent_service_id : String
  title : String
  service_type : String
  description : String
  quantity : String
  subotal : String
  billing_start : String
  billing_end : String
  billing_account_id : String
  billing_account_name : String
  usage_unit : String
  list_unit_price : Rat
deriving Repr, DecidableEq

/-- The exceptions `process_data` and the surrounding driver can raise:
`numericParse s` models the `ValueError` of `float(s)`, `divisionByZero`
the `ZeroDivisionError` of the unit-price division, `emptyInput` the
`IndexError` of `prepared_data[0]` on an empty batch. -/
inductive Err where
  | numericParse (s : String)
  | divisionByZero
  | emptyInput
deriving Repr, DecidableEq

/-- The dict comprehension building `named_resources`: iterate over the
items in order and, for each record with empty `parent_service_id` and
non-empty `title`, map its `service_id` to its `title`, a later binding
overwriting an earlier one. -/
def namedResources (items : List Rec) : String → Option String :=
  items.foldl
    (fun m r =>
      if r.parent_service_id = "" ∧ r.title ≠ "" then
        fun k => if k = r.service_id then some r.title else m k
      else m)
    (fun _ => none)

/-- The successful outcome of the loop body for one record: every field
assignment of the Python loop, given the already-parsed `subotal` value
`sub` and quantity value `q`. `description` is
`" ".join([title, service_type, description])` with the new title. -/
def mkOut (nm : String → Option String) (d : Date) (accountId accountName : String)
    (r : Rec) (sub q : Rat) : OutRec :=
  let title := firstTok (if r.parent_service_id ≠ "" then (nm r.parent_service_id).getD "" else r.title)
  let qparts := pySplit r.quantity
  { service_id := r.service_id
    parent_service_id := r.parent_service_id
    title := title
    service_type := r.service_type
    description := title ++ " " ++ r.service_type ++ " " ++ r.description
    quantity := firstTok r.quantity
    subotal := r.subotal
    billing_start := fmtDate d
    billing_end := fmtDate (Date.mk d.year d.month (daysInMonth d.year d.month))
    billing_account_id := accountId
    billing_account_name := accountName
    usage_unit := if qparts.length > 1 then qparts.getD 1 "" else ""
    list_unit_price := ratDiv sub q }

/-- The loop body of `process_data` for one record. The failure order
follows the source line `float(record["subotal"]) / float(record["quantity"])`:
`subotal` is parsed first, then the (already overwritten, i.e. first
token of) `quantity`, then the division raises on a zero divisor. -/
def processRecord (nm : String → Option String) (d : Date) (accountId accountName : String)
    (r : Rec) : Except Err OutRec :=
  match parseFloat r.subotal with
  | none => .error (.numericParse r.subotal)
  | some sub =>
    match parseFloat (firstTok r.quantity) with
    | none => .error (.numericParse (firstTok r.quantity))
    | some q =>
      if q = 0 then .error .divisionByZero
      else .ok (mkOut nm d accountId accountName r sub q)

/-- The `for record in items` loop: records are processed and appended in
input order, and the first exception aborts the whole loop. -/
def processAll (nm : String → Option String) (d : Date) (accountId accountName : String) :
    List Rec → Except Err (List OutRec)
  | [] => .ok []
  | r :: rest =>
    match processRecord nm d accountId accountName r with
    | .error e => .error e
    | .ok o =>
      match processAll nm d accountId accountName rest with
      | .error e => .error e
      | .ok os => .ok (o :: os)

/-- `process_data`: build `named_resources` in one pre-pass, then run the
loop over the items. -/
def process_data (items : List Rec) (d : Date) (accountId accountName : String) :
    Except Err (List OutRec) :=
  processAll (namedResources items) d accountId accountName items

/-- The data path of `main` after the CSV rows are read: run
`process_data`, then take `prepared_data[0].keys()` as the field names —
an `IndexError` (here `Err.emptyInput`) when the batch is empty — and
only then hand the rows to the writer. An `Except.error` outcome means
the top-level handler prints the error and no output file is written. -/
def runPipeline (items : List Rec) (d : Date) (accountId accountName : String) :
    Except Err (List OutRec) :=
  match process_data items d accountId accountName with
  | .error e => .error e
  | .ok prepared =>
    match prepared with
    | [] => .error .emptyInput
    | _ :: _ => .ok prepared

instance {ε α : Type} [DecidableEq ε] [DecidableEq α] : DecidableEq (Except ε α)
  | .error e1, .error e2 =>
    if h : e1 = e2 then isTrue (by rw [h]) else isFalse (by intro hh; cases hh; exact h rfl)
  | .error _, .ok _ => isFalse (by intro h; cases h)
  | .ok _, .error _ => isFalse (by intro h; cases h)
  | .ok a1, .ok a2 =>
    if h : a1 = a2 then isTrue (by rw [h]) else isFalse (by intro hh; cases hh; exact h rfl)

def wDate : Date := ⟨2024, 2, 1⟩

def parentRec : Rec :=
  { service_id := "p1", parent_service_id := "", title := "Dedicated Server X99",
    service_type := "server", description := "rack", quantity := "1 month", subotal := "120" }

def childRec : Rec :=
  { service_id := "c1", parent_service_id := "p1", title := "addon",
    service_type := "traffic", description := "extra", quantity := "5 hours", subotal := "50" }

def simpleRec : Rec :=
  { service_id := "s1", parent_service_id := "", title := "Compute Instance Large",
    service_type := "vm", description := "d", quantity := "5 hours", subotal := "50" }

def zeroRec : Rec :=
  { service_id := "z1", parent_service_id := "", title := "Zero",
    service_type := "t", description := "d", quantity := "0 hours", subotal := "50" }

def zeroBadRec : Rec :=
  { service_id := "zb", parent_service_id := "", title := "ZeroBad",
    service_type := "t", description := "d", quantity := "0 hours", subotal := "oops" }

def badQtyRec : Rec :=
  { service_id := "b1", parent_service_id := "", title := "Bad",
    service_type := "t", description := "d", quantity := "abc", subotal := "1" }

def ghostParent : Rec :=
  { service_id := "p1", parent_service_id := "", title := "",
    service_type := "t", description := "d", quantity := "1", subotal := "1" }

def defOut : OutRec :=
  { service_id := "", parent_service_id := "", title := "", service_type := "",
    description := "", quantity := "", subotal := "", billing_start := "",
    billing_end := "", billing_account_id := "", billing_account_name := "",
    usage_unit := "", list_unit_price := 0 }

def wOut1 : List OutRec :=
  (process_data [parentRec] wDate "1" "My organization").toOption.getD []

def wOut4 : List OutRec :=
  (process_data [simpleRec] wDate "1" "My organization").toOption.getD []

def wOut7 : List OutRec :=
  (process_data [parentRec, childRec] wDate "1" "My organization").toOption.getD []

def wOut10 : List OutRec :=
  (process_data [ghostParent, childRec] wDate "1" "My organization").toOption.getD []

theorem ratDiv_eq_div (a b : Rat) : ratDiv a b = a / b := by
  have key : ∀ (n : Int) (d : Nat), mkRat n d = (n : Rat) / d := fun n d => Rat.mkRat_eq_div n d
  rcases eq_or_ne b 0 with rfl | hb
  · simp [ratDiv, key]
  · have hbn : b.num ≠ 0 := Rat.num_ne_zero.mpr hb
    have had : (a.den : Rat) ≠ 0 := Nat.cast_ne_zero.mpr a.den_nz
    have hbnQ : (b.num : Rat) ≠ 0 := Int.cast_ne_zero.mpr hbn
    have ha : (a.num : Rat) = a * (a.den : Rat) := (div_eq_iff had).mp (Rat.num_div_den a)
    have hb2 : (b.num : Rat) = b * (b.den : Rat) :=
      (div_eq_iff (Nat.cast_ne_zero.mpr b.den_nz)).mp (Rat.num_div_den b)
    have habs : ((b.num.natAbs : Nat) : Rat) = |(b.num : Rat)| := by
      rw [Int.cast_natAbs, Int.cast_abs]
    unfold ratDiv
    rcases le_or_lt 0 b.num with hsgn | hsgn
    · have habs2 : |(b.num : Rat)| = (b.num : Rat) := abs_of_nonneg (by exact_mod_cast hsgn)
      rw [if_pos hsgn, key]
      push_cast
      rw [habs, habs2, div_eq_div_iff (mul_ne_zero had hbnQ) hb, ha, hb2]
      ring
    · have habs2 : |(b.num : Rat)| = -(b.num : Rat) := abs_of_neg (by exact_mod_cast hsgn)
      rw [if_neg (not_le.mpr hsgn), key]
      push_cast
      rw [habs, habs2, div_eq_div_iff (by simpa using mul_ne_zero had hbnQ) hb, ha, hb2]
      ring

theorem processRecord_ok_elim {nm : String → Option String} {d : Date} {aid an : String}
    {r : Rec} {o : OutRec} (h : processRecord nm d aid an r = .ok o) :
    ∃ sub q, parseFloat r.subotal = some sub ∧ parseFloat (firstTok r.quantity) = some q ∧
      q ≠ 0 ∧ o = mkOut nm d aid an r sub q := by
  unfold processRecord at h
  split at h
  · cases h
  · rename_i sub hs
    split at h
    · cases h
    · rename_i q hq
      split at h
      · cases h
      · rename_i h0
        cases h
        exact ⟨sub, q, hs, hq, h0, rfl⟩

theorem processAll_ok_length {nm : String → Option String} {d : Date} {aid an : String}
    {l : List Rec} {out : List OutRec} (h : processAll nm d aid an l = .ok out) :
    out.length = l.length := by
  induction l generalizing out with
  | nil => simp only [processAll] at h; cases h; rfl
  | cons r rest ih =>
    simp only [processAll] at h
    cases hr : processRecord nm d aid an r <;> rw [hr] at h
    · cases h
    · cases hall : processAll nm d aid an rest <;> rw [hall] at h
      · cases h
      · cases h; simp [ih hall]

theorem processAll_ok_get {nm : String → Option String} {d : Date} {aid an : String}
    {l : List Rec} {out : List OutRec} (h : processAll nm d aid an l = .ok out)
    (i : Nat) (hi : i < l.length) (hi' : i < out.length) :
    processRecord nm d aid an (l.get ⟨i, hi⟩) = .ok (out.get ⟨i, hi'⟩) := by
  induction l generalizing out i with
  | nil => exact absurd hi (by simp)
  | cons r rest ih =>
    simp only [processAll] at h
    cases hr : processRecord nm d aid an r <;> rw [hr] at h
    · cases h
    · cases hall : processAll nm d aid an rest <;> rw [hall] at h
      · cases h
      · cases h
        cases i with
        | zero => simpa using hr
        | succ i2 => simpa using ih hall i2 (by simpa using hi) (by simpa using hi')

theorem processAll_error_first {nm : String → Option String} {d : Date} {aid an : String}
    {l : List Rec} {e : Err} (i : Nat) (hi : i < l.length)
    (hok : ∀ j (hj : j < i), ∃ o, processRecord nm d aid an (l.get ⟨j, lt_trans hj hi⟩) = .ok o)
    (herr : processRecord nm d aid an (l.get ⟨i, hi⟩) = .error e) :
    processAll nm d aid an l = .error e := by
  induction l generalizing i with
  | nil => exact absurd hi (by simp)
  | cons r rest ih =>
    cases i with
    | zero =>
      simp only [List.get] at herr
      simp only [processAll, herr]
    | succ i2 =>
      obtain ⟨o, ho⟩ := hok 0 (Nat.succ_pos i2)
      simp only [List.get] at ho
      simp only [processAll, ho]
      have hrest : processAll nm d aid an rest = .error e := by
        apply ih i2 (by simpa using hi)
        · intro j hj
          obtain ⟨o2, ho2⟩ := hok (j + 1) (by omega)
          exact ⟨o2, by simpa using ho2⟩
        · simpa using herr
      rw [hrest]

theorem processAll_error_of_stuck {nm : String → Option String} {d : Date} {aid an : String}
    {l : List Rec} (i : Nat) (hi : i < l.length)
    (hstuck : ∀ o, processRecord nm d aid an (l.get ⟨i, hi⟩) ≠ .ok o) :
    ∃ e, processAll nm d aid an l = .error e := by
  cases hall : processAll nm d aid an l with
  | error e => exact ⟨e, rfl⟩
  | ok out =>
    have hlen := processAll_ok_length hall
    exact absurd (processAll_ok_get hall i hi (by omega)) (hstuck _)

theorem processRecord_subotal_bad {nm : String → Option String} {d : Date} {aid an : String}
    {r : Rec} (hs : parseFloat r.subotal = none) :
    processRecord nm d aid an r = .error (.numericParse r.subotal) := by
  simp [processRecord, hs]

theorem processRecord_qty_bad {nm : String → Option String} {d : Date} {aid an : String}
    {r : Rec} {sub : Rat} (hs : parseFloat r.subotal = some sub)
    (hq : parseFloat (firstTok r.quantity) = none) :
    processRecord nm d aid an r = .error (.numericParse (firstTok r.quantity)) := by
  simp [processRecord, hs, hq]

theorem processRecord_div_zero {nm : String → Option String} {d : Date} {aid an : String}
    {r : Rec} {sub : Rat} (hs : parseFloat r.subotal = some sub)
    (hq : parseFloat (firstTok r.quantity) = some 0) :
    processRecord nm d aid an r = .error .divisionByZero := by
  simp [processRecord, hs, hq]

theorem foldlNamed (l : List Rec) (m : String → Option String) (k : String) :
    (l.foldl
      (fun m r =>
        if r.parent_service_id = "" ∧ r.title ≠ "" then
          fun k => if k = r.service_id then some r.title else m k
        else m)
      m) k
    = (match l.reverse.find?
        (fun r => r.parent_service_id == "" && r.title != "" && r.service_id == k) with
      | some r => some r.title
      | none => m k) := by
  induction l generalizing m with
  | nil => rfl
  | cons r rest ih =>
    rw [List.foldl_cons, ih]
    rw [List.reverse_cons, List.find?_append]
    cases hf : rest.reverse.find?
        (fun r => r.parent_service_id == "" && r.title != "" && r.service_id == k) with
    | some x => simp [hf]
    | none =>
      cases hp : (r.parent_service_id == "" && r.title != "" && r.service_id == k) with
      | true =>
        simp only [hf, Option.none_or, List.find?_cons, hp]
        have hp3 : r.parent_service_id = "" ∧ r.title ≠ "" ∧ r.service_id = k := by
          simpa [Bool.and_assoc] using hp
        rw [if_pos ⟨hp3.1, hp3.2.1⟩, if_pos hp3.2.2.symm]
      | false =>
        simp only [hf, Option.none_or, List.find?_cons, hp, List.find?_nil]
        by_cases hc : r.parent_service_id = "" ∧ r.title ≠ ""
        · rw [if_pos hc]
          have hp3 : ¬r.service_id = k := by
            intro hk
            simp [hc.1, hc.2, hk] at hp
          rw [if_neg (fun h => hp3 h.symm)]
        · rw [if_neg hc]

theorem namedResources_eq_find (items : List Rec) (k : String) :
    namedResources items k
    = (match items.reverse.find?
        (fun r => r.parent_service_id == "" && r.title != "" && r.service_id == k) with
      | some r => some r.title
      | none => none) := by
  exact foldlNamed items (fun _ => none) k

/-- C1 counterexample: for issue date 2024-02-15 the output `billing_start`
is `"15.02.24"`, the issue date itself, not `"01.02.24"`, the formatted
first day of the issue month: the code formats `issue_date` directly and
never resets the day to 1. -/
theorem billing_start_midmonth_counterexample :
    (process_data [parentRec] (Date.mk 2024 2 15) "1" "My organization").toOption.map
      (fun l => l.map OutRec.billing_start) = some ["15.02.24"]
    ∧ fmtDate (Date.mk 2024 2 1) = "01.02.24"
    ∧ ("15.02.24" : String) ≠ "01.02.24" := by decide

/-- C1 (amended): every output record's `billing_start` is `issue_date`
itself formatted `DD.MM.YY`; it equals the formatted first day of the
issue month exactly when `issue_date` falls on day 1 (as the default
invoice date does). -/
theorem billing_start_eq_issue_date (items : List Rec) (d : Date) (aid an : String)
    (out : List OutRec) (h : process_data items d aid an = .ok out)
    (o : OutRec) (ho : o ∈ out) :
    o.billing_start = fmtDate d ∧
      (d.day = 1 → o.billing_start = fmtDate (Date.mk d.year d.month 1)) := by
  obtain ⟨⟨i, hi'⟩, rfl⟩ := List.get_of_mem ho
  have hi : i < items.length := by rw [← processAll_ok_length h]; exact hi'
  obtain ⟨sub, q, hs, hq, h0, ho2⟩ := processRecord_ok_elim (processAll_ok_get h i hi hi')
  rw [ho2]
  constructor
  · simp [mkOut]
  · intro hd
    cases d with
    | mk y mo da =>
      simp only at hd
      subst hd
      simp [mkOut]

/-- C1 witness. -/
theorem billing_start_eq_issue_date_witness :
    process_data [parentRec] wDate "1" "My organization" = .ok wOut1 ∧
    (wOut1.headD defOut).billing_start = fmtDate wDate := by
  have h : process_data [parentRec] wDate "1" "My organization" = .ok wOut1 := by decide
  have hmem : wOut1.headD defOut ∈ wOut1 := by decide
  exact ⟨h, (billing_start_eq_issue_date _ _ _ _ _ h _ hmem).1⟩

/-- C2: every output record's `billing_end` is the last calendar day of
the issue month (via `daysInMonth`, leap-year aware) formatted
`DD.MM.YY`. -/
theorem billing_end_last_day (items : List Rec) (d : Date) (aid an : String)
    (out : List OutRec) (h : process_data items d aid an = .ok out)
    (o : OutRec) (ho : o ∈ out) :
    o.billing_end = fmtDate (Date.mk d.year d.month (daysInMonth d.year d.month)) := by
  obtain ⟨⟨i, hi'⟩, rfl⟩ := List.get_of_mem ho
  have hi : i < items.length := by rw [← processAll_ok_length h]; exact hi'
  obtain ⟨sub, q, hs, hq, h0, ho2⟩ := processRecord_ok_elim (processAll_ok_get h i hi hi')
  rw [ho2]
  simp [mkOut]

/-- C2 witness: for issue date 2024-02-01 (a leap year) `billing_end` is
`"29.02.24"` and `billing_start` is `"01.02.24"`. -/
theorem billing_end_last_day_witness :
    process_data [parentRec] wDate "1" "My organization" = .ok wOut1 ∧
    (wOut1.headD defOut).billing_end = fmtDate (Date.mk 2024 2 (daysInMonth 2024 2)) ∧
    (wOut1.headD defOut).billing_end = "29.02.24" ∧
    (wOut1.headD defOut).billing_start = "01.02.24" := by
  have h : process_data [parentRec] wDate "1" "My organization" = .ok wOut1 := by decide
  have hmem : wOut1.headD defOut ∈ wOut1 := by decide
  exact ⟨h, billing_end_last_day _ _ _ _ _ h _ hmem, by decide, by decide⟩

theorem mkOut_title (nm : String → Option String) (d : Date) (aid an : String)
    (r : Rec) (sub q : Rat) :
    (mkOut nm d aid an r sub q).title =
      firstTok (if r.parent_service_id ≠ "" then (nm r.parent_service_id).getD "" else r.title) :=
  rfl

/-- C3: the output `title` is the first space-delimited token of the
record's own original title when `parent_service_id` is empty; when
`parent_service_id` is non-empty it is the first token of the resolved
parent title from the name table, or the empty string when the table has
no entry for that parent id. -/
theorem title_resolution (items : List Rec) (d : Date) (aid an : String)
    (out : List OutRec) (h : process_data items d aid an = .ok out)
    (i : Nat) (hi : i < items.length) (hi' : i < out.length) :
    (out.get ⟨i, hi'⟩).title =
      (if (items.get ⟨i, hi⟩).parent_service_id = ""
       then firstTok (items.get ⟨i, hi⟩).title
       else (match namedResources items (items.get ⟨i, hi⟩).parent_service_id with
         | some t => firstTok t
         | none => "")) := by
  obtain ⟨sub, q, hs, hq, h0, ho2⟩ := processRecord_ok_elim (processAll_ok_get h i hi hi')
  rw [ho2, mkOut_title]
  by_cases hp : (items.get ⟨i, hi⟩).parent_service_id = ""
  · rw [if_pos hp, if_neg (not_not_intro hp)]
  · rw [if_neg hp, if_pos hp]
    cases hn : namedResources items (items.get ⟨i, hi⟩).parent_service_id with
    | none => decide
    | some t => rfl

/-- C3 witness: the child record resolves to the first token of the
parent's original title. -/
theorem title_resolution_witness :
    process_data [parentRec, childRec] wDate "1" "My organization" = .ok wOut7 ∧
    (wOut7.get ⟨1, by decide⟩).title = firstTok parentRec.title ∧
    (wOut7.get ⟨1, by decide⟩).title = "Dedicated" := by
  have h : process_data [parentRec, childRec] wDate "1" "My organization" = .ok wOut7 := by
    decide
  have hh := title_resolution _ _ _ _ _ h 1 (by decide) (by decide)
  exact ⟨h, hh.trans (by decide), hh.trans (by decide)⟩

/-- C4: the output `quantity` is the first space-delimited token of the
original quantity, `usage_unit` is the second token when one exists and
empty otherwise, and `list_unit_price` is the parsed `subotal` divided by
the parsed first quantity token. -/
theorem quantity_price_fields (items : List Rec) (d : Date) (aid an : String)
    (out : List OutRec) (h : process_data items d aid an = .ok out)
    (i : Nat) (hi : i < items.length) (hi' : i < out.length) :
    (out.get ⟨i, hi'⟩).quantity = firstTok (items.get ⟨i, hi⟩).quantity ∧
    (out.get ⟨i, hi'⟩).usage_unit =
      (if (pySplit (items.get ⟨i, hi⟩).quantity).length > 1
       then (pySplit (items.get ⟨i, hi⟩).quantity).getD 1 "" else "") ∧
    ∃ sub q, parseFloat (items.get ⟨i, hi⟩).subotal = some sub ∧
      parseFloat (firstTok (items.get ⟨i, hi⟩).quantity) = some q ∧
      (out.get ⟨i, hi'⟩).list_unit_price = sub / q := by
  obtain ⟨sub, q, hs, hq, h0, ho2⟩ := processRecord_ok_elim (processAll_ok_get h i hi hi')
  rw [ho2]
  refine ⟨by simp [mkOut], by simp [mkOut], sub, q, hs, hq, ?_⟩
  simp only [mkOut]
  exact ratDiv_eq_div sub q

/-- C4 witness: quantity `"5 hours"` with subotal `"50"` yields quantity
`"5"`, usage_unit `"hours"`, list_unit_price `10`. -/
theorem quantity_price_fields_witness :
    process_data [simpleRec] wDate "1" "My organization" = .ok wOut4 ∧
    (wOut4.get ⟨0, by decide⟩).quantity = firstTok simpleRec.quantity ∧
    (∃ sub q, parseFloat simpleRec.subotal = some sub ∧
      parseFloat (firstTok simpleRec.quantity) = some q ∧
      (wOut4.get ⟨0, by decide⟩).list_unit_price = sub / q) ∧
    (wOut4.get ⟨0, by decide⟩).quantity = "5" ∧
    (wOut4.get ⟨0, by decide⟩).usage_unit = "hours" ∧
    (wOut4.get ⟨0, by decide⟩).list_unit_price = 10 := by
  have h : process_data [simpleRec] wDate "1" "My organization" = .ok wOut4 := by decide
  have hh := quantity_price_fields _ _ _ _ _ h 0 (by decide) (by decide)
  exact ⟨h, hh.1, hh.2.2, by decide, by decide, by decide⟩

/-- C5 counterexample: a batch whose only record has quantity
`"0 hours"` (first token parses to zero) but unparseable subotal
`"oops"` fails with a numeric-parse error, not with the division
error the claim promises: `float(record["subotal"])` is evaluated
first and raises before the division is reached. -/
theorem zero_quantity_error_kind_counterexample :
    parseFloat (firstTok zeroBadRec.quantity) = some 0 ∧
    process_data [zeroBadRec] wDate "1" "My organization" = .error (.numericParse "oops") ∧
    Err.numericParse "oops" ≠ Err.divisionByZero := by decide

/-- C5 (amended): a batch containing a record whose post-split quantity
token parses to zero always fails (so no output file is produced); the
error is specifically the division error provided that record's subotal
parses and all earlier records process without error — otherwise the
batch still fails, but with the earlier record's or the subotal's error. -/
theorem zero_quantity_aborts (items : List Rec) (d : Date) (aid an : String) (i : Nat)
    (hi : i < items.length)
    (h0 : parseFloat (firstTok (items.get ⟨i, hi⟩).quantity) = some 0) :
    (∃ e, process_data items d aid an = .error e) ∧
    (∀ sub, parseFloat (items.get ⟨i, hi⟩).subotal = some sub →
      (∀ j (hj : j < i), ∃ o,
        processRecord (namedResources items) d aid an (items.get ⟨j, lt_trans hj hi⟩) = .ok o) →
      process_data items d aid an = .error .divisionByZero) := by
  constructor
  · apply processAll_error_of_stuck i hi
    intro o hok
    obtain ⟨sub, q, hs, hq, hne, _⟩ := processRecord_ok_elim hok
    rw [h0] at hq
    cases hq
    exact hne rfl
  · intro sub hs hok
    exact processAll_error_first i hi hok (processRecord_div_zero hs h0)

/-- C5 witness: `"0 hours"` with parseable subotal, preceded by a good
record, aborts the batch with the division error. -/
theorem zero_quantity_aborts_witness :
    parseFloat (firstTok zeroRec.quantity) = some 0 ∧
    process_data [simpleRec, zeroRec] wDate "1" "My organization" = .error .divisionByZero := by
  have h0 : parseFloat (firstTok ([simpleRec, zeroRec].get ⟨1, by decide⟩).quantity) = some 0 := by
    decide
  have hh := zero_quantity_aborts [simpleRec, zeroRec] wDate "1" "My organization" 1 (by decide) h0
  refine ⟨by decide, hh.2 50 (by decide) ?_⟩
  intro j hj
  cases j with
  | zero =>
    refine ⟨(processRecord (namedResources [simpleRec, zeroRec]) wDate "1" "My organization"
      simpleRec).toOption.getD defOut, ?_⟩
    show processRecord (namedResources [simpleRec, zeroRec]) wDate "1" "My organization"
      simpleRec = _
    decide
  | succ j2 => exact absurd hj (by omega)

/-- C6 counterexample: a batch whose second record has unparseable
quantity `"abc"` nevertheless fails with the division error raised by
the earlier zero-quantity record, not with a numeric-parse error: the
first failing record in iteration order determines the error. -/
theorem numeric_error_kind_counterexample :
    parseFloat (firstTok badQtyRec.quantity) = none ∧
    process_data [zeroRec, badQtyRec] wDate "1" "My organization" = .error .divisionByZero ∧
    (∀ s, process_data [zeroRec, badQtyRec] wDate "1" "My organization" ≠
      .error (.numericParse s)) := by
  have h2 : process_data [zeroRec, badQtyRec] wDate "1" "My organization" =
      .error .divisionByZero := by decide
  refine ⟨by decide, h2, ?_⟩
  intro s hs
  rw [h2] at hs
  cases hs

/-- C6 (amended): a batch containing a record whose subotal or first
quantity token does not parse always fails (no partial output); the
error is specifically a numeric-parse error provided all earlier records
process without error — otherwise the batch still fails, with the
earlier record's error. -/
theorem unparseable_aborts (items : List Rec) (d : Date) (aid an : String) (i : Nat)
    (hi : i < items.length)
    (h0 : parseFloat (items.get ⟨i, hi⟩).subotal = none ∨
      parseFloat (firstTok (items.get ⟨i, hi⟩).quantity) = none) :
    (∃ e, process_data items d aid an = .error e) ∧
    ((∀ j (hj : j < i), ∃ o,
        processRecord (namedResources items) d aid an (items.get ⟨j, lt_trans hj hi⟩) = .ok o) →
      ∃ s, process_data items d aid an = .error (.numericParse s)) := by
  constructor
  · apply processAll_error_of_stuck i hi
    intro o hok
    obtain ⟨sub, q, hs, hq, _, _⟩ := processRecord_ok_elim hok
    rcases h0 with h0 | h0
    · rw [h0] at hs; cases hs
    · rw [h0] at hq; cases hq
  · intro hok
    cases hs : parseFloat (items.get ⟨i, hi⟩).subotal with
    | none => exact ⟨_, processAll_error_first i hi hok (processRecord_subotal_bad hs)⟩
    | some sub =>
      have hq : parseFloat (firstTok (items.get ⟨i, hi⟩).quantity) = none := by
        rcases h0 with h0 | h0
        · rw [h0] at hs; cases hs
        · exact h0
      exact ⟨_, processAll_error_first i hi hok (processRecord_qty_bad hs hq)⟩

/-- C6 witness: an unparseable quantity aborts the batch with a
numeric-parse error. -/
theorem unparseable_aborts_witness :
    parseFloat (firstTok badQtyRec.quantity) = none ∧
    (∃ s, process_data [badQtyRec] wDate "1" "My organization" = .error (.numericParse s)) := by
  have hh := unparseable_aborts [badQtyRec] wDate "1" "My organization" 0 (by decide)
    (Or.inr (by decide))
  exact ⟨by decide, hh.2 (fun j hj => absurd hj (by omega))⟩

/-- C7: on success the output has exactly as many records as the input,
and the record at every index is the processed form of the input record
at the same index (order is preserved). -/
theorem output_count_order (items : List Rec) (d : Date) (aid an : String)
    (out : List OutRec) (h : process_data items d aid an = .ok out) :
    out.length = items.length ∧
    ∀ i (hi : i < items.length) (hi' : i < out.length),
      processRecord (namedResources items) d aid an (items.get ⟨i, hi⟩) = .ok (out.get ⟨i, hi'⟩) :=
  ⟨processAll_ok_length h, fun i hi hi' => processAll_ok_get h i hi hi'⟩

/-- C7 witness. -/
theorem output_count_order_witness :
    process_data [parentRec, childRec] wDate "1" "My organization" = .ok wOut7 ∧
    wOut7.length = [parentRec, childRec].length := by
  have h : process_data [parentRec, childRec] wDate "1" "My organization" = .ok wOut7 := by
    decide
  exact ⟨h, (output_count_order _ _ _ _ _ h).1⟩

/-- C8: an empty batch makes the run fail with the empty-input error
(`prepared_data[0].keys()` cannot derive field names) before anything is
written. -/
theorem empty_input_fails (d : Date) (aid an : String) :
    runPipeline [] d aid an = .error .emptyInput := rfl

/-- C9: looking up any key in the name table yields the title of the
last record in iteration order (first in the reversed list) whose
`parent_service_id` is empty, whose `title` is non-empty and whose
`service_id` is that key — and `none` when no such record exists. This
is exactly "contains the (service_id, title) pairs of the qualifying
records, with last-write-wins on duplicate service ids". -/
theorem name_table_exact (items : List Rec) (k : String) :
    namedResources items k
    = (match items.reverse.find?
        (fun r => r.parent_service_id == "" && r.title != "" && r.service_id == k) with
      | some r => some r.title
      | none => none) :=
  namedResources_eq_find items k

/-- C10 counterexample: the child's `parent_service_id` `"p1"` matches
`ghostParent`, a record with empty `parent_service_id` and empty title —
yet the child's output title is `"Dedicated"`, not `""`, because another
top-level record with the same `service_id` and a non-empty title filled
the name table. -/
theorem empty_title_parent_counterexample :
    ghostParent.parent_service_id = "" ∧ ghostParent.title = "" ∧
    childRec.parent_service_id = ghostParent.service_id ∧
    (process_data [ghostParent, parentRec, childRec] wDate "1" "My organization").toOption.map
      (fun l => l.map OutRec.title) = some ["", "Dedicated", "Dedicated"] ∧
    ("Dedicated" : String) ≠ "" := by decide

/-- C10 (amended): a child whose non-empty `parent_service_id` matches a
top-level record with an empty title gets the empty output title,
provided no other top-level record shares that `service_id` with a
non-empty title (so the name table truly has no entry for it). -/
theorem child_of_empty_title_parent (items : List Rec) (d : Date) (aid an : String)
    (out : List OutRec) (h : process_data items d aid an = .ok out)
    (i : Nat) (hi : i < items.length) (hi' : i < out.length)
    (hpid : (items.get ⟨i, hi⟩).parent_service_id ≠ "")
    (hex : ∃ p, p ∈ items ∧ p.parent_service_id = "" ∧ p.title = "" ∧
      p.service_id = (items.get ⟨i, hi⟩).parent_service_id)
    (hall : ∀ p, p ∈ items → p.parent_service_id = "" →
      p.service_id = (items.get ⟨i, hi⟩).parent_service_id → p.title = "") :
    (out.get ⟨i, hi'⟩).title = "" := by
  obtain ⟨sub, q, hs, hq, h0, ho2⟩ := processRecord_ok_elim (processAll_ok_get h i hi hi')
  rw [ho2, mkOut_title]
  have hnone : namedResources items (items.get ⟨i, hi⟩).parent_service_id = none := by
    rw [namedResources_eq_find]
    have hfind : items.reverse.find?
        (fun r => r.parent_service_id == "" && r.title != "" &&
          r.service_id == (items.get ⟨i, hi⟩).parent_service_id) = none := by
      rw [List.find?_eq_none]
      intro r hrmem hcontra
      rw [List.mem_reverse] at hrmem
      have hps : r.parent_service_id = "" ∧ r.title ≠ "" ∧
          r.service_id = (items.get ⟨i, hi⟩).parent_service_id := by
        simpa [Bool.and_assoc] using hcontra
      exact hps.2.1 (hall r hrmem hps.1 hps.2.2)
    rw [hfind]
  rw [if_pos hpid, hnone]
  decide

/-- C10 witness: a lone empty-titled parent with a child resolves the
child's title to the empty string. -/
theorem child_of_empty_title_parent_witness :
    process_data [ghostParent, childRec] wDate "1" "My organization" = .ok wOut10 ∧
    (wOut10.get ⟨1, by decide⟩).title = "" := by
  have h : process_data [ghostParent, childRec] wDate "1" "My organization" = .ok wOut10 := by
    decide
  refine ⟨h, child_of_empty_title_parent _ _ _ _ _ h 1 (by decide) (by decide) (by decide)
    ⟨ghostParent, by decide, rfl, rfl, rfl⟩ ?_⟩
  intro p hp hpe hps
  have hp2 : p = ghostParent ∨ p = childRec := by simpa using hp
  rcases hp2 with rfl | rfl
  · rfl
  · exact absurd hpe (by decide)
